import Mathlib

/-
Verification of the `checkmark` validation library (headers under
`src/include/cm/`): a shallow embedding, in Lean 4, of the bounded-view
string substrate (`cm::range`), the validator wrapper (`cm::validator`),
the port / IP-literal / domain leaf validators, the SMTP local-part and
address grammar, and the URL syntax parsers (`non_hier`, `userinfo`,
`path`, `separators`, `mailto`, `generic`, `scheme`, `resource`).

Strings are modelled as `List Char`, with each `Char` standing for one
byte of the C++ `std::string`.  `std::string::size_type` values are
modelled as `Nat` with `npos = 2^64 - 1`; the one place the C++ code can
wrap a `size_t` addition (the `offset + count` bound check in the
`cm::range` constructor) is modelled with an explicit `% 2^64`.
C++ `std::string::operator[]` applied to the index `size()` yields the
null character (guaranteed since C++11); reads past `size()` would be
undefined behaviour and are modelled by the default/`none` branches of
the access helpers.  A C++ exception escaping a constructor (the
`std::out_of_range` of `cm::range`, or the `std::string` substring
constructor inside `ip_literal_facade`) is modelled by the `Out.thrown`
outcome, as opposed to `Out.err`, which models the error-as-value state
set through `error_check::set_error`.
-/

namespace Checkmark

/-- Named character constants for the bytes that are awkward to write as
Lean character literals. -/
def chNul : Char := Char.ofNat 0

def chDQ : Char := Char.ofNat 34

def chSQ : Char := Char.ofNat 39

def chBS : Char := Char.ofNat 92

def chBT : Char := Char.ofNat 96

def chLCurl : Char := Char.ofNat 123

def chRCurl : Char := Char.ofNat 125

/-- `std::string::npos` (a 64-bit `size_t`). -/
def npos : Nat := 2 ^ 64 - 1

/-- C `isspace` on the ASCII range (space and the five control
whitespace characters), as applied to the bytes of the input. -/
def c_isspace (c : Char) : Bool := c.toNat = 32 ∨ (9 ≤ c.toNat ∧ c.toNat ≤ 13)

/-- C `isdigit`. -/
def c_isdigit (c : Char) : Bool := 48 ≤ c.toNat ∧ c.toNat ≤ 57

/-- C `isxdigit`. -/
def c_isxdigit (c : Char) : Bool :=
  (48 ≤ c.toNat ∧ c.toNat ≤ 57) ∨ (97 ≤ c.toNat ∧ c.toNat ≤ 102) ∨
    (65 ≤ c.toNat ∧ c.toNat ≤ 70)

/-- C `tolower` restricted to the byte range, as used by
`cm::url::scheme` (`std::transform(..., ::tolower)`). -/
def c_tolower (c : Char) : Char :=
  if 65 ≤ c.toNat ∧ c.toNat ≤ 90 then Char.ofNat (c.toNat + 32) else c

/-- `std::string::operator[] const`: indexing at `size()` returns the
null character; larger indices (undefined behaviour in C++) also return
the null character here — theorem `C5` below shows the code never
performs such a read. -/
def cxxIdx (s : List Char) (i : Nat) : Char := s.getD i chNul

/-- Auxiliary scan for `find_first_of`: first index (counted from `i`)
at which character `c` occurs, `npos` if absent. -/
def findChGo (c : Char) : List Char → Nat → Nat
  | [], _ => npos
  | x :: xs, i => if x = c then i else findChGo c xs (i + 1)

/-- `std::string::find_first_of(char, start)`. -/
def find_first_of (s : List Char) (c : Char) (start : Nat) : Nat :=
  findChGo c (s.drop start) start

/-- Index of the last occurrence of `c`, if any. -/
def lastIdx (c : Char) : List Char → Option Nat
  | [] => none
  | x :: xs =>
    match lastIdx c xs with
    | some j => some (j + 1)
    | none => if x = c then some 0 else none

/-- `std::string::find_last_of(char)` (with the start position at the
last byte, as the sources always call it). -/
def find_last_of (s : List Char) (c : Char) : Nat :=
  match lastIdx c s with
  | some j => j
  | none => npos

/-- Outcome of running a C++ constructor of an `error_check` descendant:
either an exception escaped (`thrown`), or the object was built with an
error recorded through `set_error` (`err`), or it was built cleanly
(`ok`). -/
inductive Out (α : Type) where
  | thrown (msg : String)
  | err (msg : String)
  | ok (v : α)
deriving DecidableEq, Repr

/-! ### `cm::range` — the BoundedView (validator.h lines 19–191) -/

/-- The state of a constructed `cm::range`: the borrowed backing string
and the window `[offset, offset + count)`. -/
structure range where
  value : List Char
  offset : Nat
  count : Nat
deriving DecidableEq, Repr

/-- The throwing `cm::range` constructor; `none` models the
`std::out_of_range` throws. -/
def range.mk? (value : List Char) (offset count : Nat) : Option range :=
  let count := if count = npos then 0 else count
  let sz := value.length
  if sz = 0 ∧ offset = 0 ∧ count = 0 then some ⟨value, 0, 0⟩
  else if offset ≥ sz then none
  else if (offset + count) % 2 ^ 64 ≥ sz then none
  else some ⟨value, offset, if count ≠ 0 then count else sz - offset⟩

/-- `cm::range::create`: on an out-of-range error the empty view over
`kEmpty` is substituted. -/
def range.create (value : List Char) (offset count : Nat) : range :=
  match range.mk? value offset count with
  | some r => r
  | none => ⟨[], 0, 0⟩

def range.isEmpty (r : range) : Bool := r.count = 0

def range.has_next (r : range) : Bool := r.count > 1

/-- The `operator value_type()` cast: an owned copy of the current
window (`kEmpty` when the view is empty). -/
def range.str (r : range) : List Char :=
  if r.count = 0 then [] else (r.value.drop r.offset).take r.count

/-- `range::front`: `_value[_offset]` (null at `size()`). -/
def range.front (r : range) : Char := cxxIdx r.value r.offset

/-- `range::operator++`; `none` models the `std::out_of_range` throw. -/
def range.incr? (r : range) : Option range :=
  if r.offset + 1 > r.value.length then none
  else some ⟨r.value, r.offset + 1, if r.count > 0 then r.count - 1 else r.count⟩

/-- `range::operator+=(i)`: `i` applications of `operator++`. -/
def range.addN? (r : range) : Nat → Option range
  | 0 => some r
  | n + 1 =>
    match range.incr? r with
    | none => none
    | some r2 => range.addN? r2 n

/-! ### `cm::validator` — the counting wrapper (validator.h 263–364) -/

/-- The `cm::count` mixin state: cumulative good/bad counters. -/
structure counters where
  good : Nat
  bad : Nat
deriving DecidableEq, Repr

/-- `cm::validator<T, E, true>::operator()`: build `T` from the input;
on `has_error()` bump the bad counter and throw `E` carrying `error()`,
otherwise bump the good counter and return the object.  The validated
type is abstracted by its constructor function `ctor` and its
`error()` accessor `errOf` (with `has_error() = ¬ error().isEmpty`). -/
def validatorApply {T : Type} (ctor : List Char → T) (errOf : T → String)
    (st : counters) (inp : List Char) : counters × Except String T :=
  let val := ctor inp
  if (errOf val).isEmpty = false then
    (⟨st.good, st.bad + 1⟩, Except.error (errOf val))
  else
    (⟨st.good + 1, st.bad⟩, Except.ok val)

/-- Reuse of one wrapper instance over a batch of inputs (counters are
threaded through, never reset). -/
def validatorApplyList {T : Type} (ctor : List Char → T) (errOf : T → String)
    (st : counters) : List (List Char) → counters
  | [] => st
  | inp :: rest =>
    validatorApplyList ctor errOf (validatorApply ctor errOf st inp).1 rest

/-! ### `cm::net::port` (net.h 101–171) -/

/-- The digit-accumulation loop of the `port` constructor. -/
def portLoop : List Char → Nat → Except String Nat
  | [], p => Except.ok p
  | c :: rest, p =>
    if ¬ c_isdigit c then Except.error "Invalid character for port."
    else
      let p := p * 10 + (c.toNat - 48)
      if p > 65535 then Except.error "Number for port too big."
      else portLoop rest p

/-- `cm::net::port::port`. -/
def portRun (s : List Char) : Except String Nat :=
  if s.isEmpty then Except.error "Empty port!"
  else portLoop s 0

/-! ### `inet_pton` and the IP literal facade (net.h 22–318)

`cm::net::ipv4` / `ipv6` delegate to the C library function
`inet_pton`, which is outside this repository; it is modelled here
after the reference (glibc / BIND) implementation of `inet_pton4` and
`inet_pton6`.  Only its accept/reject verdict is ever used by the
repository code. -/

def xdigitVal (c : Char) : Option Nat :=
  if 48 ≤ c.toNat ∧ c.toNat ≤ 57 then some (c.toNat - 48)
  else if 97 ≤ c.toNat ∧ c.toNat ≤ 102 then some (c.toNat - 87)
  else if 65 ≤ c.toNat ∧ c.toNat ≤ 70 then some (c.toNat - 55)
  else none

/-- The dotted-quad scanner of `inet_pton4` (state: current octet
value, whether a digit was seen in the current octet, octet count). -/
def pton4Loop : List Char → Nat → Bool → Nat → Bool
  | [], _, _, octets => octets = 4
  | c :: rest, cur, sawDigit, octets =>
    if c_isdigit c then
      let v := cur * 10 + (c.toNat - 48)
      if sawDigit ∧ cur = 0 then false
      else if v > 255 then false
      else if ¬ sawDigit then
        if octets + 1 > 4 then false else pton4Loop rest v true (octets + 1)
      else pton4Loop rest v true octets
    else if c = '.' ∧ sawDigit then
      if octets = 4 then false else pton4Loop rest 0 false octets
    else false

/-- `inet_pton(AF_INET, ·)` accept/reject verdict. -/
def inet_pton4 (s : List Char) : Bool := pton4Loop s 0 false 0

/-- Tail of the `inet_pton6` finishing code: flush a pending group,
then check the byte count against the 16-byte buffer, taking the `::`
compression into account. -/
def pton6Finish (tp : Nat) (colonSeen : Bool) (sawX : Bool) : Bool :=
  if sawX ∧ tp + 2 > 16 then false
  else
    let tpF := if sawX then tp + 2 else tp
    if colonSeen then tpF ≠ 16 else tpF = 16

/-- Main scanner of `inet_pton6`.  State: bytes written `tp`, whether a
`::` was seen, whether the current group has a digit, the current group
value, and the suffix starting at the current group (for an embedded
dotted quad). -/
def pton6Loop : List Char → Nat → Bool → Bool → Nat → List Char → Bool
  | [], tp, colonSeen, sawX, _, _ => pton6Finish tp colonSeen sawX
  | c :: rest, tp, colonSeen, sawX, val, curtok =>
    match xdigitVal c with
    | some d =>
      let v := val * 16 + d
      if v > 65535 then false
      else pton6Loop rest tp colonSeen true v curtok
    | none =>
      if c = ':' then
        if ¬ sawX then
          if colonSeen then false
          else pton6Loop rest tp true sawX val rest
        else if tp + 2 > 16 then false
        else pton6Loop rest (tp + 2) colonSeen false 0 rest
      else if c = '.' ∧ tp + 4 ≤ 16 ∧ inet_pton4 curtok then
        pton6Finish (tp + 4) colonSeen false
      else false

/-- `inet_pton(AF_INET6, ·)` accept/reject verdict. -/
def inet_pton6 (s : List Char) : Bool :=
  match s with
  | ':' :: rest =>
    match rest with
    | ':' :: _ => pton6Loop rest 0 false false 0 rest
    | _ => false
  | _ => pton6Loop s 0 false false 0 s

/-- `std::string(in, pos, len)` substring constructor: throws
(`none`) when `pos > in.size()`; the count is clamped to the remaining
length.  `len` is given already reduced mod `2^64` by the caller where
the C++ expression can wrap. -/
def cxxSubstr (s : List Char) (pos len : Nat) : Option (List Char) :=
  if pos > s.length then none else some ((s.drop pos).take len)

/-- Naive `std::string::find(pattern, start)` for a pattern string. -/
def findSubGo (s pat : List Char) : Nat → Nat → Nat
  | _, 0 => npos
  | i, fuel + 1 =>
    if pat.isPrefixOf (s.drop i) then i
    else if i ≥ s.length then npos
    else findSubGo s pat (i + 1) fuel

def findSub (s pat : List Char) (start : Nat) : Nat :=
  findSubGo s pat start (s.length + 1 - start)

/-- `cm::net::ip_literal_facade::ip_literal_facade(in, pfx)`.  Note:
the enclosing-bracket check only records an error without returning, so
a later successful IP check leaves that error in place while a failing
IP check overwrites it. -/
def ipLiteralFacadeRun (s : List Char) (pfx : Bool) : Out Unit :=
  if s.length < 3 then Out.err "Literal value too small."
  else if ¬ (s.count '[' = 1 ∧ s.count ']' = 1) then Out.err "Invalid literal value."
  else
    let encl : Option String :=
      if ¬ (s.headD chNul = '[' ∧ s.getLastD chNul = ']') then
        some "Invalid enclosing literal value."
      else none
    let ipv6pfx := "IPv6:".toList
    let must_be_ipv6 : Bool := s.contains ':' ∨ (pfx ∧ findSub s ipv6pfx 1 ≠ npos)
    if must_be_ipv6 then
      let pos : Nat := if pfx then 6 else 1
      match cxxSubstr s pos (s.length - (pos + 1)) with
      | none => Out.thrown "basic_string"
      | some addr =>
        if ¬ inet_pton6 addr then Out.err "Literal value error. Invalid IPv6 address."
        else
          match encl with
          | some m => Out.err m
          | none => Out.ok ()
    else
      match cxxSubstr s 1 (s.length - 2) with
      | none => Out.thrown "basic_string"
      | some addr =>
        if ¬ inet_pton4 addr then Out.err "Literal value error. Invalid IPv4 address."
        else
          match encl with
          | some m => Out.err m
          | none => Out.ok ()

/-! ### `cm::dns::domain` (domain.h 48–263) -/

/-- The character predicate of the domain `all_of` scan. -/
def domainValidChar (c : Char) : Bool :=
  (65 ≤ c.toNat ∧ c.toNat ≤ 90) ∨ (97 ≤ c.toNat ∧ c.toNat ≤ 122) ∨
    (48 ≤ c.toNat ∧ c.toNat ≤ 57) ∨ c = '.' ∨ c = '-' ∨ c = ' ' ∨ c.toNat > 127

/-- The adjacency / label-length loop of the domain constructor; the
first triggered error (which returns immediately in the C++) or
`none`. -/
def domainAdjLoop : List Char → Nat → Char → Nat → Option String
  | [], _, _, _ => none
  | c :: rest, i, prevC, label_len =>
    if label_len > 63 then
      some ("Label size too big for domain at position " ++ toString i)
    else if (c = '-' ∨ c = '.') ∧ prevC = '.' then
      some ("Invalid sequence of characters for domain at position " ++ toString i)
    else if c = '.' ∧ prevC = '-' then
      some ("Invalid sequence of characters for domain at position " ++ toString i)
    else domainAdjLoop rest (i + 1) c (if c = '.' then 0 else label_len + 1)

/-- `cm::dns::domain::domain`.  A facade error does not return early:
it is carried into the adjacency loop and survives only if that loop
finds nothing. -/
def domainRun (s : List Char) : Out Unit :=
  if s.isEmpty then Out.err "Domain name is empty."
  else if s.length > 255 then Out.err "Domain name is too big."
  else if c_isspace (s.headD chNul) then Out.err "Domain name with leading whitespace."
  else if c_isspace (s.getLastD chNul) then Out.err "Domain name with trailing whitespace."
  else if s.headD chNul = '.' then Out.err "Domain name begins with the '.' (Dot) character."
  else if s.getLastD chNul = '.' then Out.err "Domain name ends with the '.' (Dot) character."
  else if s.headD chNul = '-' then Out.err "Domain name begins with the '-' (Hyphen) character."
  else if s.getLastD chNul = '-' then Out.err "Domain name ends with the '-' (Hyphen) character."
  else
    let is_literal : Bool := s.headD chNul = '[' ∧ s.getLastD chNul = ']'
    let carried : Out (Option String) :=
      if is_literal then
        match ipLiteralFacadeRun s true with
        | Out.thrown m => Out.thrown m
        | Out.err m => Out.ok (some m)
        | Out.ok _ => Out.ok none
      else
        if ¬ s.all domainValidChar then Out.err "Domain name has invalid characters."
        else if s.countP (fun c => c_isdigit c) = s.length then
          Out.err "The domain name is composed only by digit characters."
        else Out.ok none
    match carried with
    | Out.thrown m => Out.thrown m
    | Out.err m => Out.err m
    | Out.ok pending =>
      match domainAdjLoop s 0 chNul 0 with
      | some m => Out.err m
      | none =>
        match pending with
        | some m => Out.err m
        | none => Out.ok ()

/-! ### `cm::smtp::local_part` (smtp.h 87–592) -/

/-- `local_part::is_delim`. -/
def lp_is_delim (c : Char) : Bool := c = '.' ∨ c = chDQ ∨ c = '('

/-- `local_part::is_special_restricted`. -/
def lp_is_special_restricted (c : Char) : Bool :=
  c = ' ' ∨ c = chDQ ∨ c = '(' ∨ c = ')' ∨ c = ',' ∨ c = ':' ∨ c = ';' ∨
    c = '<' ∨ c = '>' ∨ c = '@' ∨ c = '[' ∨ c = chBS ∨ c = ']'

/-- Byte read through `c_str()`: null at `size()` (and at the
unreachable positions beyond, see the short-circuit structure of the
UTF-8 checks). -/
def byteAt (s : List Char) (i : Nat) : Nat := (s.getD i chNul).toNat

/-- `local_part::is_valid_char(addr, pos)`: the verdict and the extra
advance applied to `pos` (0 for a single byte, 1–3 for a well-formed
UTF-8 multi-byte sequence). -/
def lp_is_valid_char (s : List Char) (pos : Nat) : Bool × Nat :=
  let c := s.getD pos chNul
  let n := c.toNat
  if (65 ≤ n ∧ n ≤ 90) ∨ (97 ≤ n ∧ n ≤ 122) then (true, 0)
  else if 48 ≤ n ∧ n ≤ 57 then (true, 0)
  else if c = '.' ∨ c = '&' ∨ c = '_' ∨ c = '-' ∨ c = '=' ∨ c = '/' ∨ c = '+' ∨
      c = '$' ∨ c = chSQ ∨ c = '*' ∨ c = '#' ∨ c = '!' ∨ c = '?' ∨ c = chBT ∨
      c = chLCurl ∨ c = chRCurl ∨ c = '|' ∨ c = '~' ∨ c = '^' ∨ c = '%' then (true, 0)
  else if n > 127 then
    let b0 := n
    let b1 := byteAt s (pos + 1)
    let b2 := byteAt s (pos + 2)
    let b3 := byteAt s (pos + 3)
    if (194 ≤ b0 ∧ b0 ≤ 223) ∧ (128 ≤ b1 ∧ b1 ≤ 191) then (true, 1)
    else if (b0 = 224 ∧ (160 ≤ b1 ∧ b1 ≤ 191) ∧ (128 ≤ b2 ∧ b2 ≤ 191)) ∨
        (((225 ≤ b0 ∧ b0 ≤ 236) ∨ b0 = 238 ∨ b0 = 239) ∧
          (128 ≤ b1 ∧ b1 ≤ 191) ∧ (128 ≤ b2 ∧ b2 ≤ 191)) ∨
        (b0 = 237 ∧ (128 ≤ b1 ∧ b1 ≤ 159) ∧ (128 ≤ b2 ∧ b2 ≤ 191)) then (true, 2)
    else if (b0 = 240 ∧ (144 ≤ b1 ∧ b1 ≤ 191) ∧ (128 ≤ b2 ∧ b2 ≤ 191) ∧
          (128 ≤ b3 ∧ b3 ≤ 191)) ∨
        ((241 ≤ b0 ∧ b0 ≤ 243) ∧ (128 ≤ b1 ∧ b1 ≤ 191) ∧
          (128 ≤ b2 ∧ b2 ≤ 191) ∧ (128 ≤ b3 ∧ b3 ≤ 191)) ∨
        (b0 = 244 ∧ (128 ≤ b1 ∧ b1 ≤ 143) ∧ (128 ≤ b2 ∧ b2 ≤ 191) ∧
          (128 ≤ b3 ∧ b3 ≤ 191)) then (true, 3)
    else (false, 0)
  else (false, 0)

/-- The ten case pairs of the `postmaster` special case (smtp.h
360–372), in the order the nested `if`s read them. -/
def postmasterPairs : List (Char × Char) :=
  [('p', 'P'), ('o', 'O'), ('s', 'S'), ('t', 'T'), ('m', 'M'),
   ('a', 'A'), ('s', 'S'), ('t', 'T'), ('e', 'E'), ('r', 'R')]

/-- The nested-`if` `postmaster` check, parameterised by the string
accessor: `get i = none` models reaching an out-of-range read,
`some false` means some position failed to match (the constructor then
continues), `some true` means all ten positions matched. -/
def pmCheck (get : Nat → Option Char) : Nat → List (Char × Char) → Option Bool
  | _, [] => some true
  | i, (l, u) :: rest =>
    match get i with
    | none => none
    | some c => if c = l ∨ c = u then pmCheck get (i + 1) rest else some false

/-- Strict accessor: any index at or past the length is out of range. -/
def strictGet (s : List Char) (i : Nat) : Option Char := s.get? i

/-- C++ accessor: `operator[]` at index `size()` is defined and yields
the null character; indices beyond are undefined behaviour (`none`). -/
def cxxGet (s : List Char) (i : Nat) : Option Char :=
  if i < s.length then s.get? i
  else if i = s.length then some chNul
  else none

/-- The preliminary checks of the `local_part` constructor (emptiness,
size, whitespace and dot ends), before the `postmaster` special
case. -/
def lpPrelim (s : List Char) : Option String :=
  if s.isEmpty then some "Empty local part."
  else if s.length > 64 then some "Local part too big."
  else if c_isspace (s.headD chNul) then some "Local part with leading whitespace."
  else if c_isspace (s.getLastD chNul) then some "Local part with trailing whitespace."
  else if s.headD chNul = '.' then some "Local part begins with the '.' (Dot) character."
  else if s.getLastD chNul = '.' then some "Local part ends with the '.' (Dot) character."
  else none

/-- The no-delimiter fast scan (`is_valid_char` over every position,
with the UTF-8 advance). -/
def lpFastScan : Nat → List Char → Nat → Option String
  | 0, _, _ => none
  | fuel + 1, s, i =>
    if i < s.length then
      match lp_is_valid_char s i with
      | (true, adv) => lpFastScan fuel s (i + adv + 1)
      | (false, _) =>
        some ("Invalid character at local part at position " ++ toString i)
    else none

/-- `local_part::parse_state`. -/
structure lpState where
  lc : Bool := false
  rc : Bool := false
  qt : Bool := false
  lqt : Int := -1
  prev : Char := chNul
  err : Nat := 0
  pos : Nat := 0
deriving DecidableEq, Repr

/-- The dotted/quoted/comment scan loop of the `local_part`
constructor, translated branch by branch (including the dead
`s.rc && c == ')'` arm inside the not-quoted branch).  The fuel is one
more than the remaining length; each step consumes at least one
position. -/
def lpLoop : Nat → List Char → Nat → lpState → lpState
  | 0, _, _, st => st
  | fuel + 1, s, i, st =>
    if i < s.length then
      let c := s.getD i chNul
      let st := { st with pos := i }
      if i > 0 then
        if ¬ st.qt ∧ ¬ st.lc ∧ ¬ st.rc then
          if c ≠ chDQ then
            let va := lp_is_valid_char s i
            if ¬ va.1 ∧ c ≠ '.' ∧ (st.lc ∧ c ≠ '(') ∧ c ≠ chDQ then
              { st with err := 7 }
            else if lp_is_special_restricted c then
              if c = '(' then
                lpLoop fuel s (i + va.2 + 1) { st with rc := true, prev := c }
              else if st.rc ∧ c = ')' then
                let st :=
                  if i = s.length - 1 then { st with rc := false }
                  else { st with lc := false }
                lpLoop fuel s (i + va.2 + 1) { st with prev := c }
              else { st with err := 2 }
            else if c = '.' ∧ st.prev = '.' then { st with err := 3 }
            else lpLoop fuel s (i + va.2 + 1) { st with prev := c }
          else
            if st.prev ≠ '.' then { st with err := 5 }
            else lpLoop fuel s (i + 1) { st with qt := true, lqt := Int.ofNat i, prev := c }
        else
          if c = chDQ ∧ st.prev = chDQ ∧ st.lqt + 1 = Int.ofNat i then
            { st with err := 8 }
          else if c = chDQ ∧ st.prev ≠ chBS then
            lpLoop fuel s (i + 1) { st with lqt := Int.ofNat i, qt := false, prev := c }
          else
            let va := lp_is_valid_char s i
            if ¬ va.1 ∧ ¬ lp_is_special_restricted c then { st with err := 7 }
            else lpLoop fuel s (i + va.2 + 1) { st with prev := c }
      else
        if c = '(' then lpLoop fuel s (i + 1) { st with lc := true }
        else if c = chDQ then lpLoop fuel s (i + 1) { st with qt := true, lqt := 0 }
        else if c.toNat = 41 ∨ c.toNat = 44 ∨ c.toNat = 58 ∨ c.toNat = 59 ∨
            c.toNat = 60 ∨ c.toNat = 62 ∨ c.toNat = 64 ∨ c.toNat = 91 ∨
            c.toNat = 92 ∨ c.toNat = 93 then
          { st with err := 1 }
        else lpLoop fuel s (i + 1) st
    else st

/-- The error-message builder after the scan loop (smtp.h 532–587). -/
def lpErrMsg (s : List Char) (st : lpState) : Option String :=
  if st.err ≠ 0 then
    let c := (s.getD st.pos chNul).toString
    let p := toString st.pos
    if st.err = 1 then
      some ("Invalid leading restricted special character (" ++ c ++ ") [pos: " ++ p ++ "]")
    else if st.err = 2 then
      some ("Unquoted restricted special character (" ++ c ++ ") [pos: " ++ p ++ "]")
    else if st.err = 3 then
      some ("Consecutive unquoted Dot(.) separator (" ++ c ++ ") [pos: " ++ p ++ "]")
    else if st.err = 5 then
      some ("Not starting quoted without Dot(.) separator (" ++ c ++ ") [pos: " ++ p ++ "]")
    else if st.err = 6 then
      some ("Quoted quote or backslash not escaped (" ++ c ++ ") [pos: " ++ p ++ "]")
    else if st.err = 7 then
      some ("Invalid char (" ++ c ++ ") [pos: " ++ p ++ "]")
    else if st.err = 8 then
      some ("Consecutive quotes (" ++ c ++ ") [pos: " ++ p ++ "]")
    else some ("Unspecified error (" ++ c ++ ") [pos: " ++ p ++ "]")
  else if st.qt then
    some ("Unfinished quote (" ++ (s.getD st.lqt.toNat chNul).toString ++
      ") [pos: " ++ toString st.lqt ++ "]")
  else if st.lc then
    some ("Comment not finished at lhs local part begin (" ++
      (s.getD st.pos chNul).toString ++ ") [pos: " ++ toString st.pos ++ "]")
  else if st.rc then
    some ("Comment not finished at rhs local part end (" ++
      (s.getD st.pos chNul).toString ++ ") [pos: " ++ toString st.pos ++ "]")
  else none

/-- `cm::smtp::local_part::local_part`: `none` is a clean construction,
`some msg` the recorded error.  The `postmaster` check is run with the
C++ accessor; theorem `C5` below shows its out-of-range branch is
unreachable, so collapsing `none` into the non-match case is sound. -/
def localPartRun (s : List Char) : Option String :=
  match lpPrelim s with
  | some e => some e
  | none =>
    if pmCheck (cxxGet s) 0 postmasterPairs = some true then none
    else if ¬ s.any lp_is_delim then lpFastScan (s.length + 1) s 0
    else if s.headD chNul = chDQ ∧ s.length < 3 then some "Quoted local part to small"
    else lpErrMsg s (lpLoop (s.length + 1) s 0 {})

/-! ### `cm::smtp::address` (smtp.h 703–827) -/

/-- `cm::smtp::address::address`: split at the last `@`, then compose
the local-part and domain validators. -/
def addressRun (s : List Char) : Out (List Char × List Char) :=
  if s.isEmpty then Out.err "Address specification cannot be empty."
  else if s.length < 3 then Out.err "Address specification is too small."
  else if s.length > 254 then Out.err "Address specification too big."
  else
    let at_pos := find_last_of s '@'
    if at_pos = 0 then Out.err "Address cannot begin with the '@' (at-sign) character."
    else if at_pos = npos then Out.err "Missing '@' (at-sign) character."
    else
      let lp := s.take at_pos
      match localPartRun lp with
      | some e => Out.err e
      | none =>
        let dp := s.drop (at_pos + 1)
        match domainRun dp with
        | Out.thrown m => Out.thrown m
        | Out.err e => Out.err e
        | Out.ok _ => Out.ok (lp, dp)

/-! ### `cm::url::details` character classes (url.h 57–123) -/

def is_unreserved (c : Char) : Bool :=
  (65 ≤ c.toNat ∧ c.toNat ≤ 90) ∨ (97 ≤ c.toNat ∧ c.toNat ≤ 122) ∨
    (48 ≤ c.toNat ∧ c.toNat ≤ 57) ∨ c = '.' ∨ c = '-' ∨ c = '_' ∨ c = '~'

def is_sub_delims (c : Char) : Bool :=
  c = '!' ∨ c = '$' ∨ c = '&' ∨ c = chSQ ∨ c = '(' ∨ c = ')' ∨ c = '*' ∨
    c = '+' ∨ c = ',' ∨ c = ';' ∨ c = '='

/-! ### `cm::url::syntax::non_hier` / `userinfo` / `path` (url.h 126–435) -/

/-- One step of `non_hier::is_valid_char` at position `pos`: `none` if
the character is fine, `some (msg?)` if invalid, where `msg?` is an
error recorded by the percent checks (`none` leaves the loop to record
the generic invalid-character message). -/
def nonHierCharCheck (s : List Char) (pos : Nat) : Option (Option String) :=
  let c := s.getD pos chNul
  if c = '/' ∨ c = '?' ∨ c = ':' ∨ c = '@' then none
  else if is_unreserved c then none
  else if is_sub_delims c then none
  else if c = '%' then
    if pos > s.length - 2 then
      some (some ("Percentile encoding too late in non_hier at position " ++ toString pos))
    else if ¬ (c_isxdigit (s.getD (pos + 1) chNul) ∧ c_isxdigit (s.getD (pos + 2) chNul)) then
      some (some ("Bad Percentile encoding in non_hier at position " ++ toString pos))
    else none
  else some none

/-- The scan loop of the `non_hier` constructor, starting at position 1. -/
def nonHierScan : Nat → List Char → Nat → Option String
  | 0, _, _ => none
  | fuel + 1, s, i =>
    if i < s.length then
      match nonHierCharCheck s i with
      | none => nonHierScan fuel s (i + 1)
      | some (some m) => some m
      | some none => some ("Invalid character in non_hier at position " ++ toString i)
    else none

/-- `cm::url::syntax::non_hier::non_hier` (also `fragment` and `query`,
which merely inherit its constructor): validate from position 1, store
the input and erase its first character. -/
def nonHierRun (s : List Char) : Except String (List Char) :=
  if s.isEmpty then Except.ok []
  else
    match nonHierScan (s.length + 1) s 1 with
    | some e => Except.error e
    | none => Except.ok (s.drop 1)

/-- One step of `userinfo::is_valid_char` (the percent error texts say
`non_hier`, faithfully to the source). -/
def userinfoCharCheck (s : List Char) (pos : Nat) : Option (Option String) :=
  let c := s.getD pos chNul
  if c = ':' then none
  else if is_unreserved c then none
  else if is_sub_delims c then none
  else if c = '%' then
    if pos > s.length - 2 then
      some (some ("Percentile encoding too late in non_hier at position " ++ toString pos))
    else if ¬ (c_isxdigit (s.getD (pos + 1) chNul) ∧ c_isxdigit (s.getD (pos + 2) chNul)) then
      some (some ("Bad Percentile encoding in non_hier at position " ++ toString pos))
    else none
  else some none

def userinfoScan : Nat → List Char → Nat → Option String
  | 0, _, _ => none
  | fuel + 1, s, i =>
    if i < s.length then
      match userinfoCharCheck s i with
      | none => userinfoScan fuel s (i + 1)
      | some (some m) => some m
      | some none => some ("Invalid character in userinfo at position " ++ toString i)
    else none

/-- `cm::url::syntax::userinfo::userinfo`: validate from position 0 and
keep the whole text as value. -/
def userinfoRun (s : List Char) : Except String (List Char) :=
  if s.isEmpty then Except.ok []
  else
    match userinfoScan (s.length + 1) s 0 with
    | some e => Except.error e
    | none => Except.ok s

/-- One step of `path::is_valid_char`.  Faithful quirk: the `%` branch
has no `return true` for a well-formed percent triple, so a valid
escape still falls through to `return false` (with no recorded
message), producing the generic invalid-character error. -/
def pathCharCheck (s : List Char) (pos : Nat) : Option (Option String) :=
  let c := s.getD pos chNul
  if c = ':' ∨ c = '@' then none
  else if is_unreserved c then none
  else if is_sub_delims c then none
  else if c = '%' then
    if pos > s.length - 2 then
      some (some ("Percentile encoding too late in non_hier at position " ++ toString pos))
    else if ¬ (c_isxdigit (s.getD (pos + 1) chNul) ∧ c_isxdigit (s.getD (pos + 2) chNul)) then
      some (some ("Bad Percentile encoding in non_hier at position " ++ toString pos))
    else some none
  else some none

def pathScan : Nat → List Char → Nat → Option String
  | 0, _, _ => none
  | fuel + 1, s, i =>
    if i < s.length then
      match pathCharCheck s i with
      | none => pathScan fuel s (i + 1)
      | some (some m) => some m
      | some none => some ("Invalid character in non_hier at position " ++ toString i)
    else none

/-- `cm::url::syntax::path::path`. -/
def pathRun (s : List Char) : Except String (List Char) :=
  if s.isEmpty then Except.ok []
  else if s.headD chNul ≠ '/' then
    Except.error "Path does not begin with a '/' (slash) character."
  else
    match pathScan (s.length + 1) s 1 with
    | some e => Except.error e
    | none => Except.ok s

/-! ### `cm::url::syntax::separators` (url.h 440–496) -/

/-- The five first-occurrence separator positions, after the colon
re-search adjustment of the constructor. -/
structure separators where
  path : Nat
  query : Nat
  fragment : Nat
  colon : Nat
  atSign : Nat
deriving DecidableEq, Repr

/-- `separators::separators(in)`. -/
def separatorsMk (s : List Char) : separators :=
  let p := find_first_of s '/' 0
  let q := find_first_of s '?' 0
  let f := find_first_of s '#' 0
  let a := find_first_of s '@' 0
  let c := find_first_of s ':' 0
  let c := if a ≠ npos ∧ c < a then find_first_of s ':' (c + 1) else c
  ⟨p, q, f, c, a⟩

/-- `separators::diff(lhs, rhs)` on two stored positions, as a
mathematical `int` (positions in practice are far below `2^31`). -/
def sepDiff (l r : Nat) : Int :=
  if l = npos ∧ r = npos then 0
  else if l = npos then 0 - (r : Int)
  else if r = npos then 0
  else (r : Int) - (l : Int)

/-! ### `cm::url::syntax::mailto` (url.h 540–590) -/

/-- `cm::url::syntax::mailto::mailto`: on success returns the stored
query value (if any) and the address text handed to
`cm::smtp::address`. -/
def mailtoRun (s : List Char) : Out (Option (List Char) × List Char) :=
  if s.isEmpty then Out.err "Empty mailto syntax."
  else
    let query_pos := find_last_of s '?'
    let qstep : Out (Option (List Char)) :=
      if query_pos ≠ npos then
        match range.mk? s query_pos 0 with
        | none => Out.thrown "range offset error"
        | some r =>
          match nonHierRun (range.str r) with
          | Except.error e => Out.err e
          | Except.ok v => Out.ok (some v)
      else Out.ok none
    match qstep with
    | Out.thrown m => Out.thrown m
    | Out.err m => Out.err m
    | Out.ok qv =>
      let addr := if query_pos ≠ npos then s.take query_pos else s
      match addressRun addr with
      | Out.thrown m => Out.thrown m
      | Out.err e => Out.err e
      | Out.ok _ => Out.ok (qv, addr)

/-- `cm::url::syntax::cid::cid`: empty check, then the address
grammar. -/
def cidRun (s : List Char) : Out (List Char) :=
  if s.isEmpty then Out.err "Empty cid syntax."
  else
    match addressRun s with
    | Out.thrown m => Out.thrown m
    | Out.err e => Out.err e
    | Out.ok _ => Out.ok s

/-! ### `cm::url::syntax::generic` (url.h 598–811) -/

/-- The stored parts of a parsed generic URL remainder. -/
structure genParts where
  userinfo : Option (List Char) := none
  host : List Char := []
  port : Nat := 0
  path : Option (List Char) := none
  query : Option (List Char) := none
  fragment : Option (List Char) := none
deriving DecidableEq, Repr

/-- The port step shared by the literal and non-literal host paths of
the generic parser (url.h 737–752 and 784–799): at the `:` check the
view must still have more than one character, then it is advanced past
the `:` and handed to the `port` validator. -/
def genericPortStep (auth : range) (parts : genParts) : Out (genParts × range) :=
  if auth.front = ':' then
    if ¬ auth.has_next then Out.err "Invalid empty port."
    else
      match auth.incr? with
      | none => Out.thrown "range incr error"
      | some auth2 =>
        match portRun auth2.str with
        | Except.error e => Out.err e
        | Except.ok p => Out.ok ({ parts with port := p }, auth2)
  else Out.ok (parts, auth)

/-- The non-literal host handling plus the port tail (url.h 757–800);
this code runs unconditionally, also after the IPv6-literal branch. -/
def genericHostTail (auth : range) (parts : genParts) : Out genParts :=
  let sl := auth.str
  let found := sl.contains ':'
  let host_sz := if found then findChGo ':' sl 0 else auth.count
  let has_port := found
  let addr := if has_port then sl.take host_sz else sl
  match domainRun addr with
  | Out.thrown m => Out.thrown m
  | Out.err e => Out.err e
  | Out.ok _ =>
    let parts := { parts with host := addr }
    if has_port then
      match auth.addN? host_sz with
      | none => Out.thrown "range incr error"
      | some auth2 =>
        match genericPortStep auth2 parts with
        | Out.thrown m => Out.thrown m
        | Out.err m => Out.err m
        | Out.ok (parts2, _) => Out.ok parts2
    else Out.ok parts

/-- `cm::url::syntax::generic::generic(in)`. -/
def genericRun (s : List Char) : Out genParts :=
  if s.isEmpty then Out.err "Empty generic URL."
  else if s.length = 1 ∧ (s.headD chNul = '/' ∨ s.headD chNul = '#' ∨ s.headD chNul = '?') then
    Out.err "Empty authority part."
  else
    let sep := separatorsMk s
    let parts : genParts := {}
    let fstep : Out genParts :=
      if sep.fragment ≠ npos then
        match range.mk? s sep.fragment 0 with
        | none => Out.thrown "range offset error"
        | some r =>
          match nonHierRun r.str with
          | Except.error e => Out.err e
          | Except.ok v => Out.ok { parts with fragment := some v }
      else Out.ok parts
    match fstep with
    | Out.thrown m => Out.thrown m
    | Out.err m => Out.err m
    | Out.ok parts =>
      let diff_f := sepDiff sep.query sep.fragment
      let qstep : Out genParts :=
        if sep.query ≠ npos ∧ diff_f ≥ 0 then
          match range.mk? s sep.query diff_f.toNat with
          | none => Out.thrown "range offset error"
          | some r =>
            match nonHierRun r.str with
            | Except.error e => Out.err e
            | Except.ok v => Out.ok { parts with query := some v }
        else Out.ok parts
      match qstep with
      | Out.thrown m => Out.thrown m
      | Out.err m => Out.err m
      | Out.ok parts =>
        let diff_f2 := sepDiff sep.path sep.fragment
        let diff_q := sepDiff sep.path sep.query
        let min_diff := min diff_q diff_f2
        let pstep : Out genParts :=
          if sep.query ≠ npos ∧ min_diff ≥ 0 then
            match range.mk? s sep.path min_diff.toNat with
            | none => Out.thrown "range offset error"
            | some r =>
              match pathRun r.str with
              | Except.error e => Out.err e
              | Except.ok v => Out.ok { parts with path := some v }
          else Out.ok parts
        match pstep with
        | Out.thrown m => Out.thrown m
        | Out.err m => Out.err m
        | Out.ok parts =>
          match range.mk? s 0 (min (min sep.path sep.query) sep.fragment) with
          | none => Out.thrown "range offset error"
          | some auth_range =>
            let has_userinfo := auth_range.str.count '@' ≠ 0
            let ustep : Out (genParts × range) :=
              if has_userinfo then
                match range.mk? s 0 sep.atSign with
                | none => Out.thrown "range offset error"
                | some r =>
                  match userinfoRun r.str with
                  | Except.error e => Out.err e
                  | Except.ok v =>
                    match auth_range.addN? (sep.atSign + 1) with
                    | none => Out.thrown "range incr error"
                    | some a2 => Out.ok ({ parts with userinfo := some v }, a2)
              else Out.ok (parts, auth_range)
            match ustep with
            | Out.thrown m => Out.thrown m
            | Out.err m => Out.err m
            | Out.ok (parts, auth_range) =>
              let lstep : Out (genParts × range) :=
                if auth_range.front = '[' then
                  let sl := auth_range.str
                  if ¬ sl.contains ']' then Out.err "Invalid literal host."
                  else
                    let literal_sz := findChGo ']' sl 0 + 1
                    let addr := sl.take literal_sz
                    match ipLiteralFacadeRun addr false with
                    | Out.thrown m => Out.thrown m
                    | Out.err e => Out.err e
                    | Out.ok _ =>
                      let parts := { parts with host := addr }
                      match auth_range.addN? literal_sz with
                      | none => Out.thrown "range incr error"
                      | some a2 =>
                        match genericPortStep a2 parts with
                        | Out.thrown m => Out.thrown m
                        | Out.err m => Out.err m
                        | Out.ok (parts2, a3) => Out.ok (parts2, a3)
                else Out.ok (parts, auth_range)
              match lstep with
              | Out.thrown m => Out.thrown m
              | Out.err m => Out.err m
              | Out.ok (parts, auth_range) => genericHostTail auth_range parts

/-! ### `cm::url::scheme` and `resource` (url.h 843–1014) -/

/-- The scheme name table (`schemes_names`, without the terminating
null pointer). -/
def schemes_names : List (List Char) :=
  ["http", "https", "ftp", "cap", "nfs", "mailto", "cid"].map String.toList

/-- The `schemes` enumerator value `UNDEF`. -/
def UNDEF : Nat := 7

/-- The comparison loop of the `scheme` constructor: `strcmp` against
`schemes_names[i]` for `i < UNDEF - 1`. -/
def schemeFind (s : List Char) : Nat → List (List Char) → Option Nat
  | _, [] => none
  | i, nm :: rest => if s = nm then some i else schemeFind s (i + 1) rest

/-- `cm::url::scheme::scheme(name)`: lowercase, then match against the
name table; on success the id and the lowercased value are stored. -/
def schemeRun (name : List Char) : Except String (Nat × List Char) :=
  let s := name.map c_tolower
  match schemeFind s 0 (schemes_names.take (UNDEF - 1)) with
  | some i => Except.ok (i, s)
  | none => Except.error "Scheme type not found"

/-- `cm::url::resource<s, S>::resource(in)`, with the syntax
constructor `S` passed as the function `syn`; `sFixed = some id` models
a fixed template scheme, `none` the `UNDEF` (scheme taken from the
input prefix) instantiation.  Returns the stored `value()` (the whole
input) on success. -/
def resourceRun (sFixed : Option Nat) (syn : List Char → Out Unit)
    (s : List Char) : Out (List Char) :=
  if s.isEmpty then Out.err "Empty URL string."
  else
    let pos_colon := find_first_of s ':' 0
    if pos_colon = npos then Out.err "Missing ':' (colon) character."
    else
      let name :=
        match sFixed with
        | some sid => schemes_names.getD sid []
        | none => s.take pos_colon
      let idx := name.length
      if s.length ≤ idx + 1 then Out.err "URL too small."
      else
        match schemeRun name with
        | Except.error e => Out.err ("Invalid scheme. " ++ e)
        | Except.ok _ =>
          if cxxIdx s idx ≠ ':' then Out.err "Invalid scheme separator."
          else
            let idx := idx + 1
            let idx := if cxxIdx s idx = '/' then idx + 1 else idx
            let idx := if cxxIdx s idx = '/' then idx + 1 else idx
            match syn (s.drop idx) with
            | Out.thrown m => Out.thrown m
            | Out.err e => Out.err e
            | Out.ok _ => Out.ok s

/-- The `syntax::generic` instantiation of the syntax parameter. -/
def genericSyn (s : List Char) : Out Unit :=
  match genericRun s with
  | Out.thrown m => Out.thrown m
  | Out.err e => Out.err e
  | Out.ok _ => Out.ok ()

/-! ### Helper lemmas -/

set_option maxRecDepth 100000

theorem charOfNatToNat : ∀ n, n < 256 → (Char.ofNat n).toNat = n := by decide

theorem charToNatInj (c d : Char) (h : c.toNat = d.toNat) : c = d := by
  have h1 := Char.ofNat_toNat c
  have h2 := Char.ofNat_toNat d
  rw [h, h2] at h1
  exact h1.symm

/-- Inverting `c_tolower` at a lowercase letter: the pre-image is the
letter itself or its uppercase partner. -/
theorem c_tolower_inv (c l u : Char) (hl : 97 ≤ l.toNat ∧ l.toNat ≤ 122)
    (hu : u.toNat + 32 = l.toNat) (h : c_tolower c = l) : c = l ∨ c = u := by
  rw [c_tolower] at h
  split at h
  case isTrue hc =>
    right
    have h1 : (Char.ofNat (c.toNat + 32)).toNat = c.toNat + 32 :=
      charOfNatToNat _ (by omega)
    have h2 : l.toNat = c.toNat + 32 := by rw [← h, h1]
    exact charToNatInj c u (by omega)
  case isFalse => left; exact h

theorem findChGo_eq (c : Char) (l : List Char) : ∀ (i j : Nat),
    l.get? j = some c → (∀ k, k < j → l.get? k ≠ some c) →
    findChGo c l i = i + j := by
  induction l with
  | nil => intro i j hj _; simp at hj
  | cons x xs ih =>
    intro i j hj hmin
    cases j with
    | zero =>
      rw [List.get?_cons_zero] at hj
      injection hj with hx
      simp [findChGo, hx]
    | succ j2 =>
      have hx : ¬ (x = c) := by
        intro he
        exact hmin 0 (by omega) (by simp [he])
      rw [List.get?_cons_succ] at hj
      have hmin2 : ∀ k, k < j2 → xs.get? k ≠ some c := by
        intro k hk hcon
        exact hmin (k + 1) (by omega) (by rw [List.get?_cons_succ]; exact hcon)
      simp only [findChGo, if_neg hx, ih (i + 1) j2 hj hmin2]
      omega

theorem find_first_of_eq (s : List Char) (c : Char) (start j : Nat)
    (hs : start ≤ j) (hj : s.get? j = some c)
    (hmin : ∀ k, start ≤ k → k < j → s.get? k ≠ some c) :
    find_first_of s c start = j := by
  have hdrop : (s.drop start).get? (j - start) = some c := by
    rw [List.get?_eq_getElem?, List.getElem?_drop,
      show start + (j - start) = j by omega, ← List.get?_eq_getElem?]
    exact hj
  have hmin2 : ∀ k, k < j - start → (s.drop start).get? k ≠ some c := by
    intro k hk
    rw [List.get?_eq_getElem?, List.getElem?_drop, ← List.get?_eq_getElem?]
    exact hmin (start + k) (by omega) (by omega)
  rw [find_first_of, findChGo_eq c (s.drop start) start (j - start) hdrop hmin2]
  omega

theorem lastIdx_sound (c : Char) (s : List Char) : ∀ (j : Nat),
    lastIdx c s = some j → s.get? j = some c := by
  induction s with
  | nil => intro j h; simp [lastIdx] at h
  | cons x xs ih =>
    intro j h
    simp only [lastIdx] at h
    cases hxs : lastIdx c xs with
    | some j2 =>
      rw [hxs] at h
      injection h with h
      subst h
      rw [List.get?_cons_succ]
      exact ih j2 hxs
    | none =>
      rw [hxs] at h
      by_cases hx : x = c
      · rw [if_pos hx] at h
        injection h with h
        subst h
        simp [hx]
      · rw [if_neg hx] at h
        cases h

theorem lastIdx_eq (c : Char) (s : List Char) : ∀ (j : Nat),
    s.get? j = some c → (∀ k, j < k → s.get? k ≠ some c) →
    lastIdx c s = some j := by
  induction s with
  | nil => intro j hj _; simp at hj
  | cons x xs ih =>
    intro j hj hmax
    cases j with
    | zero =>
      have hx : x = c := by
        rw [List.get?_cons_zero] at hj
        injection hj
      have hnone : lastIdx c xs = none := by
        cases hxs : lastIdx c xs with
        | none => rfl
        | some j2 =>
          have hs := lastIdx_sound c xs j2 hxs
          exact absurd (by rw [List.get?_cons_succ]; exact hs)
            (hmax (j2 + 1) (by omega))
      simp [lastIdx, hnone, hx]
    | succ j2 =>
      have hj2 : xs.get? j2 = some c := by
        rw [List.get?_cons_succ] at hj
        exact hj
      have hmax2 : ∀ k, j2 < k → xs.get? k ≠ some c := by
        intro k hk hcon
        exact hmax (k + 1) (by omega) (by rw [List.get?_cons_succ]; exact hcon)
      simp [lastIdx, ih j2 hj2 hmax2]

theorem find_last_of_eq (s : List Char) (c : Char) (j : Nat)
    (hj : s.get? j = some c) (hmax : ∀ k, j < k → s.get? k ≠ some c) :
    find_last_of s c = j := by
  rw [find_last_of, lastIdx_eq c s j hj hmax]

/-- With the C++ accessor (null at `size()`, `none` past it), the
nested `postmaster` check never reaches an out-of-range read, provided
the start index is within the string and no pair matches the null
character. -/
theorem pmCheck_cxx_ne_none (s : List Char) : ∀ (ps : List (Char × Char)) (i : Nat),
    i ≤ s.length → (∀ p, p ∈ ps → p.1 ≠ chNul ∧ p.2 ≠ chNul) →
    pmCheck (cxxGet s) i ps ≠ none := by
  intro ps
  induction ps with
  | nil => intro i _ _; simp [pmCheck]
  | cons p rest ih =>
    intro i hi hps
    obtain ⟨l, u⟩ := p
    simp only [pmCheck]
    rcases Nat.lt_or_ge i s.length with hlt | hge
    · have hcx : cxxGet s i = s.get? i := by simp [cxxGet, hlt]
      obtain ⟨ci, hci⟩ : ∃ ci, s.get? i = some ci :=
        ⟨s.get ⟨i, hlt⟩, List.get?_eq_get hlt⟩
      simp only [hcx, hci]
      by_cases hm : ci = l ∨ ci = u
      · simp only [if_pos hm]
        exact ih (i + 1) (by omega) (fun q hq => hps q (List.mem_cons_of_mem _ hq))
      · simp only [if_neg hm]; simp
    · have hEq : i = s.length := by omega
      have hcx : cxxGet s i = some chNul := by
        rw [cxxGet, if_neg (by omega), if_pos hEq]
      simp only [hcx]
      have hl := hps (l, u) (List.mem_cons_self _ _)
      have hnm : ¬ (chNul = l ∨ chNul = u) := by
        rintro (h | h)
        exacts [hl.1 h.symm, hl.2 h.symm]
      simp only [if_neg hnm]; simp

/-- If every position of a pair list is matched by the corresponding
byte of the string, the nested check succeeds. -/
theorem pmCheck_of_matches (s : List Char) : ∀ (ps : List (Char × Char)) (i : Nat),
    (∀ j, j < ps.length → ∃ ch, s.get? (i + j) = some ch ∧
      (ch = (ps.getD j ('a', 'a')).1 ∨ ch = (ps.getD j ('a', 'a')).2)) →
    pmCheck (cxxGet s) i ps = some true := by
  intro ps
  induction ps with
  | nil => intro i _; simp [pmCheck]
  | cons p rest ih =>
    intro i h
    obtain ⟨ch, hch, hm⟩ := h 0 (by simp)
    rw [Nat.add_zero] at hch
    have hlt : i < s.length := (List.get?_eq_some.mp hch).1
    obtain ⟨l, u⟩ := p
    simp only [pmCheck]
    have hcx : cxxGet s i = some ch := by rw [cxxGet, if_pos hlt]; exact hch
    simp only [hcx]
    have hm2 : ch = l ∨ ch = u := by simpa using hm
    simp only [if_pos hm2]
    apply ih (i + 1)
    intro j hj
    obtain ⟨ch2, hch2, hm3⟩ := h (j + 1) (by simpa using Nat.succ_lt_succ hj)
    exact ⟨ch2, by rw [show i + 1 + j = i + (j + 1) by omega]; exact hch2,
      by simpa using hm3⟩

/-- Extracting one matched position from a lowercased-map equation. -/
theorem tolowerMapStep (s : List Char) (j : Nat) (l u : Char)
    (hl : 97 ≤ l.toNat ∧ l.toNat ≤ 122) (hu : u.toNat + 32 = l.toNat)
    (hmap : Option.map c_tolower (s.get? j) = some l) :
    ∃ ch, s.get? j = some ch ∧ (ch = l ∨ ch = u) := by
  cases hs : s.get? j with
  | none => rw [hs] at hmap; simp at hmap
  | some c =>
    rw [hs] at hmap
    simp only [Option.map_some'] at hmap
    injection hmap with hmap
    exact ⟨c, rfl, c_tolower_inv c l u hl hu hmap⟩

/-- A first-ten-bytes case-insensitive match against `postmaster`
drives the nested check to full success. -/
theorem pmCheck_of_ci (s : List Char)
    (h : (s.take 10).map c_tolower = "postmaster".toList) :
    pmCheck (cxxGet s) 0 postmasterPairs = some true := by
  apply pmCheck_of_matches
  intro j hj
  have hj10 : j < 10 := by simpa [postmasterPairs] using hj
  have hmap : Option.map c_tolower (s.get? j) = ("postmaster".toList).get? j := by
    have h1 : ((s.take 10).map c_tolower).get? j = ("postmaster".toList).get? j := by
      rw [h]
    rw [List.get?_map, List.get?_take hj10] at h1
    exact h1
  interval_cases j
  · exact (by simpa [postmasterPairs] using
      tolowerMapStep s 0 'p' 'P' (by decide) (by decide) hmap)
  · exact (by simpa [postmasterPairs] using
      tolowerMapStep s 1 'o' 'O' (by decide) (by decide) hmap)
  · exact (by simpa [postmasterPairs] using
      tolowerMapStep s 2 's' 'S' (by decide) (by decide) hmap)
  · exact (by simpa [postmasterPairs] using
      tolowerMapStep s 3 't' 'T' (by decide) (by decide) hmap)
  · exact (by simpa [postmasterPairs] using
      tolowerMapStep s 4 'm' 'M' (by decide) (by decide) hmap)
  · exact (by simpa [postmasterPairs] using
      tolowerMapStep s 5 'a' 'A' (by decide) (by decide) hmap)
  · exact (by simpa [postmasterPairs] using
      tolowerMapStep s 6 's' 'S' (by decide) (by decide) hmap)
  · exact (by simpa [postmasterPairs] using
      tolowerMapStep s 7 't' 'T' (by decide) (by decide) hmap)
  · exact (by simpa [postmasterPairs] using
      tolowerMapStep s 8 'e' 'E' (by decide) (by decide) hmap)
  · exact (by simpa [postmasterPairs] using
      tolowerMapStep s 9 'r' 'R' (by decide) (by decide) hmap)

/-- Counting behaviour of a reused wrapper over a batch of inputs. -/
theorem validatorApplyList_counts {T : Type} (ctor : List Char → T) (errOf : T → String) :
    ∀ (inputs : List (List Char)) (st : counters),
    (validatorApplyList ctor errOf st inputs).good =
        st.good + inputs.countP (fun i => (errOf (ctor i)).isEmpty) ∧
    (validatorApplyList ctor errOf st inputs).bad =
        st.bad + inputs.countP (fun i => !(errOf (ctor i)).isEmpty) := by
  intro inputs
  induction inputs with
  | nil => intro st; simp [validatorApplyList]
  | cons x rest ih =>
    intro st
    simp only [validatorApplyList, List.countP_cons]
    cases h : (errOf (ctor x)).isEmpty
    · have h1 : (validatorApply ctor errOf st x).1 = ⟨st.good, st.bad + 1⟩ := by
        simp [validatorApply, h]
      rw [h1]
      obtain ⟨hg, hb⟩ := ih ⟨st.good, st.bad + 1⟩
      constructor
      · rw [hg]; simp [h]
      · rw [hb]; simp [h]; omega
    · have h1 : (validatorApply ctor errOf st x).1 = ⟨st.good + 1, st.bad⟩ := by
        simp [validatorApply, h]
      rw [h1]
      obtain ⟨hg, hb⟩ := ih ⟨st.good + 1, st.bad⟩
      constructor
      · rw [hg]; simp [h]; omega
      · rw [hb]; simp [h]

/-! ### The claims -/

/-- C1: the spec claims `http://[::1]:8080/x` parses with path `/x`,
host `::1` and port `8080`.  The code instead rejects it: after the
IPv6-literal branch stores host `[::1]` (brackets kept) and port 8080,
control falls through into the non-literal host code, which runs the
domain validator on the text after the literal (`8080`) and fails with
"The domain name is composed only by digit characters." (and the path
branch would in any case require a `?` to be present before storing a
path).  This theorem evaluates the embedded code at the failing
input, both through the `resource<HTTP>` wrapper on the full string and
through the generic syntax parser on the post-scheme remainder. -/
theorem url_generic_ipv6_literal_c1 :
    resourceRun (some 0) genericSyn ("http://[::1]:8080/x".toList) =
      Out.err "The domain name is composed only by digit characters." ∧
    genericRun ("[::1]:8080/x".toList) =
      Out.err "The domain name is composed only by digit characters." :=
  ⟨rfl, rfl⟩

/-- C2: the scheme table holds seven names ending in `cid`, but the
constructor loop runs `i < UNDEF - 1`, i.e. over indices 0–5 only, so
`cid` is never matched and `scheme("cid")` fails with "Scheme type not
found" — contradicting the claim (and making the `resource<CID>`
typedef unusable).  The other six names do succeed with their matching
ids, case-insensitively. -/
theorem url_scheme_table_c2 :
    schemeRun ("cid".toList) = Except.error "Scheme type not found" ∧
    schemeRun ("CID".toList) = Except.error "Scheme type not found" ∧
    schemeRun ("http".toList) = Except.ok (0, "http".toList) ∧
    schemeRun ("https".toList) = Except.ok (1, "https".toList) ∧
    schemeRun ("ftp".toList) = Except.ok (2, "ftp".toList) ∧
    schemeRun ("cap".toList) = Except.ok (3, "cap".toList) ∧
    schemeRun ("nfs".toList) = Except.ok (4, "nfs".toList) ∧
    schemeRun ("MailTo".toList) = Except.ok (5, "mailto".toList) :=
  ⟨rfl, rfl, rfl, rfl, rfl, rfl, rfl, rfl⟩

/-- C3 counterexample: the claim says the stored query value retains
its leading `?`.  On the worked example `a.com?q=1#f` the generic
parser succeeds and stores the query value `q=1`, not `?q=1` — the `?`
is stripped by the unconditional first-character erase of the
`non_hier` constructor, exactly as the `#` is stripped from the
fragment (`f`). -/
theorem url_query_separator_kept_c3_counterexample :
    genericRun ("a.com?q=1#f".toList) =
      Out.ok ⟨none, "a.com".toList, 0, none, some ("q=1".toList), some ("f".toList)⟩ ∧
    some ("q=1".toList) ≠ some ("?q=1".toList) :=
  ⟨rfl, by decide⟩

/-- C3 amended: both the query and the fragment store the text of
their slice with the separator character (`?` / `#` respectively)
stripped: every successful `non_hier` construction — `query` and
`fragment` inherit this constructor unchanged — stores the input minus
its first character; on the worked example the stored query is `q=1`
and the stored fragment is `f`. -/
theorem url_query_fragment_stripped_c3 :
    (∀ (s v : List Char), nonHierRun s = Except.ok v → v = s.drop 1) ∧
    genericRun ("a.com?q=1#f".toList) =
      Out.ok ⟨none, "a.com".toList, 0, none, some ("q=1".toList), some ("f".toList)⟩ := by
  constructor
  · intro s v h
    by_cases hs : s.isEmpty
    · rw [nonHierRun, if_pos hs] at h
      injection h with h
      cases s
      · simp [← h]
      · simp at hs
    · rw [nonHierRun, if_neg hs] at h
      cases hscan : nonHierScan (s.length + 1) s 1 with
      | some e => rw [hscan] at h; cases h
      | none =>
        rw [hscan] at h
        injection h with h
        exact h.symm
  · rfl

/-- C3 witness: the amended theorem applied to the query slice
`?q=1`. -/
theorem url_query_fragment_stripped_c3_witness :
    "q=1".toList = ("?q=1".toList).drop 1 :=
  url_query_fragment_stripped_c3.1 ("?q=1".toList) ("q=1".toList) rfl

/-- C4: any input passing the preliminary local-part checks whose
first ten bytes case-insensitively equal `postmaster` is accepted by
the `local_part` constructor with no error, all further checks
bypassed — including longer inputs such as `postmasterX`. -/
theorem smtp_postmaster_bypass_c4 (s : List Char)
    (hpre : lpPrelim s = none) (hlen : 10 ≤ s.length)
    (hpm : (s.take 10).map c_tolower = "postmaster".toList) :
    localPartRun s = none := by
  have hb := pmCheck_of_ci s hpm
  simp only [localPartRun, hpre]
  rw [if_pos hb]

/-- C4 witness: `postmasterX` (11 bytes) passes the preliminary
checks, matches `postmaster` on its first ten bytes, and is accepted. -/
theorem smtp_postmaster_bypass_c4_witness :
    localPartRun ("postmasterX".toList) = none :=
  smtp_postmaster_bypass_c4 ("postmasterX".toList) rfl (by decide) rfl

/-- C5 counterexample: the claim says every index read by the
`postmaster` check is within the bounds of the input, for every input
passing the preliminary checks.  The 9-byte input `postmaste` passes
them, yet the check reads index 9 — out of range under strict
`Option`-valued indexing, which reports the out-of-range branch
(`none`). -/
theorem smtp_postmaster_bounds_c5_counterexample :
    lpPrelim ("postmaste".toList) = none ∧
    pmCheck (strictGet ("postmaste".toList)) 0 postmasterPairs = none :=
  ⟨rfl, rfl⟩

/-- C5 amended: the check can read one position past the last byte —
index `size()`, where the C++ `std::string::operator[]` is defined and
returns the null character — but never beyond: with the C++ accessor
(null at `size()`, out-of-range past it) the out-of-range branch is
unreachable for every input passing the preliminary checks. -/
theorem smtp_postmaster_bounds_c5 (s : List Char) (hpre : lpPrelim s = none) :
    pmCheck (cxxGet s) 0 postmasterPairs ≠ none :=
  pmCheck_cxx_ne_none s postmasterPairs 0 (Nat.zero_le _) (by decide)

/-- C5 witness: the amended theorem at the very input of the
counterexample, `postmaste`. -/
theorem smtp_postmaster_bounds_c5_witness :
    pmCheck (cxxGet ("postmaste".toList)) 0 postmasterPairs ≠ none :=
  smtp_postmaster_bounds_c5 ("postmaste".toList) rfl

/-- C8: the port validator accepts `65535` with value 65535, rejects
`65536`, rejects the empty text with "Empty port!", and in a generic
authority a `:` with nothing after it is rejected with "Invalid empty
port." instead of silently producing port 0. -/
theorem net_port_bounds_c8 :
    portRun ("65535".toList) = Except.ok 65535 ∧
    portRun ("65536".toList) = Except.error "Number for port too big." ∧
    portRun [] = Except.error "Empty port!" ∧
    genericRun ("a.com:".toList) = Out.err "Invalid empty port." :=
  ⟨rfl, rfl, rfl, rfl⟩

/-- C9: the counting validator wrapper constructs the validated value,
returns the error signal carrying exactly the value's error text iff
the value has an error and the value itself otherwise, incrementing
the bad counter by exactly one on failure and the good counter by
exactly one on success; over any batch of inputs the counters
accumulate from their prior values and are never reset. -/
theorem validator_wrapper_c9 {T : Type} (ctor : List Char → T) (errOf : T → String)
    (st : counters) (inp : List Char) (inputs : List (List Char)) :
    validatorApply ctor errOf st inp =
      (if (errOf (ctor inp)).isEmpty then
        (⟨st.good + 1, st.bad⟩, Except.ok (ctor inp))
      else (⟨st.good, st.bad + 1⟩, Except.error (errOf (ctor inp)))) ∧
    (validatorApplyList ctor errOf st inputs).good =
        st.good + inputs.countP (fun i => (errOf (ctor i)).isEmpty) ∧
    (validatorApplyList ctor errOf st inputs).bad =
        st.bad + inputs.countP (fun i => !(errOf (ctor i)).isEmpty) := by
  refine ⟨?_, (validatorApplyList_counts ctor errOf inputs st).1,
    (validatorApplyList_counts ctor errOf inputs st).2⟩
  cases h : (errOf (ctor inp)).isEmpty <;> simp [validatorApply, h]

/-- C6 counterexample: the claim says that when a `:` precedes the
first `@`, the colon used for host:port splitting is the first `:`
after that `@`.  In `u:p:w@h:80` the first colon (1) precedes the `@`
(5); the first colon after the `@` is at 7, but the constructor
re-searches from position first-colon+1 and stores 3. -/
theorem url_separators_colon_c6_counterexample :
    (separatorsMk ("u:p:w@h:80".toList)).colon = 3 ∧
    ("u:p:w@h:80".toList).get? 5 = some '@' ∧
    find_first_of ("u:p:w@h:80".toList) ':' 6 = 7 ∧ (3 : Nat) ≠ 7 :=
  ⟨rfl, rfl, rfl, by decide⟩

/-- C6 amended: when a `:` is found before the first `@`, the
re-search for the colon starts immediately after that first `:` (not
after the `@`): the stored colon position is the first `:` strictly
after the first one.  It lands after the `@` only when the text before
the `@` contains a single colon. -/
theorem url_separators_colon_c6 (s : List Char) (a c j : Nat)
    (hlen : s.length < npos)
    (ha : s.get? a = some '@') (ha1 : ∀ k, k < a → s.get? k ≠ some '@')
    (hc : s.get? c = some ':') (hc1 : ∀ k, k < c → s.get? k ≠ some ':')
    (hca : c < a)
    (hj : s.get? j = some ':') (hj1 : c < j)
    (hj2 : ∀ k, k < j → c < k → s.get? k ≠ some ':') :
    (separatorsMk s).colon = j := by
  obtain ⟨haLt, -⟩ := List.get?_eq_some.mp ha
  have hffa : find_first_of s '@' 0 = a :=
    find_first_of_eq s '@' 0 a (Nat.zero_le _) ha (fun k _ hk => ha1 k hk)
  have hffc : find_first_of s ':' 0 = c :=
    find_first_of_eq s ':' 0 c (Nat.zero_le _) hc (fun k _ hk => hc1 k hk)
  have hffj : find_first_of s ':' (c + 1) = j :=
    find_first_of_eq s ':' (c + 1) j (by omega) hj
      (fun k hk1 hk2 => hj2 k hk2 (by omega))
  simp only [separatorsMk, hffa, hffc]
  rw [if_pos ⟨by omega, hca⟩]
  exact hffj

/-- C6 witness: the amended theorem on `u:p:w@h:80` — the stored colon
is position 3, the second colon of the userinfo, still before the
`@`. -/
theorem url_separators_colon_c6_witness :
    (separatorsMk ("u:p:w@h:80".toList)).colon = 3 :=
  url_separators_colon_c6 ("u:p:w@h:80".toList) 5 1 3 (by decide) rfl
    (by decide) rfl (by decide) (by decide) rfl (by decide) (by decide)

/-- C7 counterexample: the claim says `range::create` returns a
non-empty view with the requested offset and count whenever
`offset + count <= source.length`.  For source `ab` with offset 0 and
count 2 the sum equals the length, yet the constructor's `>=` bound
check throws and the empty view is substituted. -/
theorem range_create_bounds_c7_counterexample :
    range.create ("ab".toList) 0 2 = ⟨[], 0, 0⟩ ∧
    0 + 2 ≤ ("ab".toList).length :=
  ⟨rfl, by decide⟩

/-- C7 amended: for `0 < count < npos` (with no `size_t` wrap in
`offset + count`), creation returns the view with exactly the
requested offset and count iff `offset + count` is strictly below the
source length; when `offset + count ≥ source.length` (including
equality) the empty view is substituted; in all cases the resulting
view satisfies `offset + count ≤ length` of its own backing string,
so it never reaches outside the source's bounds. -/
theorem range_create_bounds_c7 (v : List Char) (off cnt : Nat)
    (h1 : 0 < cnt) (h2 : cnt < npos) (h3 : off + cnt < 2 ^ 64) :
    (off + cnt < v.length → range.create v off cnt = ⟨v, off, cnt⟩) ∧
    (v.length ≤ off + cnt → range.create v off cnt = ⟨[], 0, 0⟩) ∧
    (range.create v off cnt).offset + (range.create v off cnt).count ≤
      (range.create v off cnt).value.length := by
  have hne : cnt ≠ npos := Nat.ne_of_lt h2
  have hmod : (off + cnt) % 2 ^ 64 = off + cnt := Nat.mod_eq_of_lt h3
  by_cases hlt : off + cnt < v.length
  · have hcreate : range.create v off cnt = ⟨v, off, cnt⟩ := by
      rw [range.create, range.mk?]
      simp only [if_neg hne, hmod]
      rw [if_neg (by omega), if_neg (by omega), if_neg (by omega),
        if_pos (by omega : cnt ≠ 0)]
    refine ⟨fun _ => hcreate, fun hle => absurd hlt (by omega), ?_⟩
    rw [hcreate]
    simpa using Nat.le_of_lt hlt
  · have hcreate : range.create v off cnt = ⟨[], 0, 0⟩ := by
      rw [range.create, range.mk?]
      simp only [if_neg hne, hmod]
      rw [if_neg (by omega)]
      by_cases hoff : off ≥ v.length
      · rw [if_pos hoff]
      · rw [if_neg hoff, if_pos (by omega)]
    refine ⟨fun hlt2 => absurd hlt2 hlt, fun _ => hcreate, ?_⟩
    rw [hcreate]
    simp

/-- C7 witness: the amended theorem instantiated at source `abc`,
offset 0, count 2 (strictly inside) — the view is returned as
requested. -/
theorem range_create_bounds_c7_witness :
    range.create ("abc".toList) 0 2 = ⟨"abc".toList, 0, 2⟩ :=
  (range_create_bounds_c7 ("abc".toList) 0 2 (by decide) (by decide)
    (by decide)).1 (by decide)

/-- C10: for every mailto body with a `?` at position `q` and none
after it (so `q` holds the last `?` of the input), the mailto parser
splits there: it validates the text from that last `?` onward with the
query character class (storing it minus the leading `?`, per the
`non_hier` constructor) and validates everything before it as the
email address; the outcome is exactly the composition of the two
sub-validations on those slices. -/
theorem url_mailto_split_last_c10 (s : List Char) (q : Nat)
    (hlen : s.length < npos)
    (hq : s.get? q = some '?')
    (hlast : ∀ k, k < s.length → q < k → s.get? k ≠ some '?') :
    mailtoRun s =
      (match nonHierRun (s.drop q) with
       | Except.error e => Out.err e
       | Except.ok v =>
         match addressRun (s.take q) with
         | Out.thrown m => Out.thrown m
         | Out.err e => Out.err e
         | Out.ok _ => Out.ok (some v, s.take q)) := by
  obtain ⟨hqlt, -⟩ := List.get?_eq_some.mp hq
  have hlen2 : s.length < 2 ^ 64 - 1 := hlen
  have hne : s.isEmpty = false := by
    cases s
    · simp at hq
    · rfl
  have hlast2 : ∀ k, q < k → s.get? k ≠ some '?' := by
    intro k hk
    by_cases hkl : k < s.length
    · exact hlast k hkl hk
    · rw [List.get?_eq_none.mpr (by omega)]
      simp
  have hflo : find_last_of s '?' = q := find_last_of_eq s '?' q hq hlast2
  have hqne : q ≠ npos := by rw [npos]; omega
  have hmk : range.mk? s q 0 = some ⟨s, q, s.length - q⟩ := by
    rw [range.mk?]
    simp only [if_neg (show (0 : Nat) ≠ npos by rw [npos]; omega)]
    rw [if_neg (by omega), if_neg (by omega), Nat.add_zero,
      Nat.mod_eq_of_lt (by omega), if_neg (by omega),
      if_neg (by omega : ¬ (0 : Nat) ≠ 0)]
  have hstr : range.str ⟨s, q, s.length - q⟩ = s.drop q := by
    rw [range.str]
    rw [if_neg (by simp; omega)]
    exact List.take_of_length_le (by rw [List.length_drop])
  rw [mailtoRun]
  rw [hne]
  simp only [hflo, if_pos hqne, hmk, hstr, Bool.false_eq_true, if_false]
  cases hnh : nonHierRun (s.drop q) with
  | error e => rfl
  | ok v =>
    cases haddr : addressRun (s.take q) with
    | thrown m => rfl
    | err e => rfl
    | ok p => rfl

/-- C10 witness: `a?b@ex.com?x=1` contains two `?`; the split happens
at the last one (position 10): the query is `x=1` and the address is
`a?b@ex.com` (whose local part legally contains the earlier `?`). -/
theorem url_mailto_split_last_c10_witness :
    mailtoRun ("a?b@ex.com?x=1".toList) =
      Out.ok (some ("x=1".toList), "a?b@ex.com".toList) := by
  have h := url_mailto_split_last_c10 ("a?b@ex.com?x=1".toList) 10 (by decide)
    rfl (by decide)
  rw [h]
  rfl

end Checkmark
